import Mathlib

/-!
Verification of the crypto price fetcher repository.

The development shallowly embeds the three Python source files:
`crypto_price_macd.py` (rate-limited CoinGecko client, MACD pipeline,
CSV logger, polling loop), `price_change.py` (the simpler tracker) and
`price_fetcher.py` (plain fetch/format loop).  Prices and durations are
modelled as rationals, Python dicts as association lists, fallible
operations as `Except`/`Option`.
-/

namespace CryptoFetcher

/-! ## MACD pipeline (crypto_price_macd.py, lines 103-114)

`calculate_macd` builds a pandas Series and takes
`ewm(span=s, adjust=False).mean()`.  With `adjust=False` pandas computes
`alpha = 2/(s+1)`, `ema[0] = x[0]`, `ema[i] = alpha*x[i] + (1-alpha)*ema[i-1]`.
`iloc[-1]` on an empty series raises, hence the `Option` result. -/

/-- Tail of the non-adjusted exponentially weighted mean: `prev` is the
previous EMA value, each step produces `a * x + (1 - a) * prev`. -/
def ewmAux (a : ℚ) (prev : ℚ) : List ℚ → List ℚ
  | [] => []
  | x :: xs => (a * x + (1 - a) * prev) :: ewmAux a (a * x + (1 - a) * prev) xs

/-- `series.ewm(span=span, adjust=False).mean()` on a list of rationals. -/
def ewm_mean (span : ℕ) : List ℚ → List ℚ
  | [] => []
  | x :: xs => x :: ewmAux (2 / ((span : ℚ) + 1)) x xs

/-- The `macd_line` series of `calculate_macd`: fast EMA minus slow EMA. -/
def macd_line (prices : List ℚ) (fast slow : ℕ) : List ℚ :=
  List.zipWith (fun x y => x - y) (ewm_mean fast prices) (ewm_mean slow prices)

/-- The `signal_line` series of `calculate_macd`: EMA of the MACD line. -/
def signal_line (prices : List ℚ) (fast slow signal : ℕ) : List ℚ :=
  ewm_mean signal (macd_line prices fast slow)

/-- The `histogram` series of `calculate_macd`: MACD line minus signal line. -/
def histogram (prices : List ℚ) (fast slow signal : ℕ) : List ℚ :=
  List.zipWith (fun x y => x - y) (macd_line prices fast slow)
    (signal_line prices fast slow signal)

/-- `calculate_macd(prices, fast, slow, signal)` from crypto_price_macd.py:
fast and slow EMAs of the price series, their difference as the MACD line,
the signal line as the EMA of the MACD line, the histogram as their
difference, returning the last element (`iloc[-1]`) of each series. -/
def calculate_macd (prices : List ℚ) (fast slow signal : ℕ) : Option (ℚ × ℚ × ℚ) :=
  match (macd_line prices fast slow).getLast?,
      (signal_line prices fast slow signal).getLast?,
      (histogram prices fast slow signal).getLast? with
  | some m, some s, some h => some (m, s, h)
  | _, _, _ => none

/-! ### Reference definitions, following the words of the specification -/

/-- Modelled from the spec: smoothing factor `alpha = 2/(span+1)`. -/
def specAlpha (span : ℕ) : ℚ := 2 / ((span : ℚ) + 1)

/-- Modelled from the spec: the non-adjusted recursion
`ema[0] = p 0`, `ema[i] = alpha * p i + (1 - alpha) * ema[i-1]`. -/
def specEma (a : ℚ) (p : ℕ → ℚ) : ℕ → ℚ
  | 0 => p 0
  | i + 1 => a * p (i + 1) + (1 - a) * specEma a p i

/-- Modelled from the spec: `macd_line[i] = fast_ema[i] - slow_ema[i]`. -/
def specMacdLine (prices : List ℚ) (fast slow : ℕ) (i : ℕ) : ℚ :=
  specEma (specAlpha fast) (fun j => prices.getD j 0) i
    - specEma (specAlpha slow) (fun j => prices.getD j 0) i

/-- Modelled from the spec: the signal line is the EMA of the MACD line. -/
def specSignalLine (prices : List ℚ) (fast slow signal : ℕ) : ℕ → ℚ :=
  specEma (specAlpha signal) (specMacdLine prices fast slow)

/-- Modelled from the spec: `histogram[i] = macd_line[i] - signal_line[i]`. -/
def specHistogram (prices : List ℚ) (fast slow signal : ℕ) (i : ℕ) : ℚ :=
  specMacdLine prices fast slow i - specSignalLine prices fast slow signal i

/-! ### Length and index lemmas for the EMA -/

@[simp] theorem length_ewmAux (a prev : ℚ) (xs : List ℚ) :
    (ewmAux a prev xs).length = xs.length := by
  induction xs generalizing prev with
  | nil => rfl
  | cons x xs ih => simp [ewmAux, ih]

@[simp] theorem length_ewm_mean (span : ℕ) (l : List ℚ) :
    (ewm_mean span l).length = l.length := by
  cases l with
  | nil => rfl
  | cons x xs => simp [ewm_mean]

theorem ewmAux_getD_zero (a prev : ℚ) (x : ℚ) (xs : List ℚ) :
    (ewmAux a prev (x :: xs)).getD 0 0 = a * x + (1 - a) * prev := by
  simp [ewmAux]

theorem ewmAux_getD_succ (a : ℚ) (xs : List ℚ) :
    ∀ (i : ℕ) (prev : ℚ), i + 1 < xs.length →
      (ewmAux a prev xs).getD (i + 1) 0
        = a * xs.getD (i + 1) 0 + (1 - a) * (ewmAux a prev xs).getD i 0 := by
  induction xs with
  | nil => intro i prev h; simp at h
  | cons x xs ih =>
    intro i prev h
    cases i with
    | zero =>
      cases xs with
      | nil => simp at h
      | cons y ys => simp [ewmAux]
    | succ j =>
      have hj : j + 1 < xs.length := by
        simpa using Nat.lt_of_succ_lt_succ h
      have := ih j (a * x + (1 - a) * prev) hj
      simpa [ewmAux] using this

theorem ewm_mean_getD_zero (span : ℕ) (x : ℚ) (xs : List ℚ) :
    (ewm_mean span (x :: xs)).getD 0 0 = x := by
  simp [ewm_mean]

theorem ewm_mean_getD_succ (span : ℕ) (l : List ℚ) (i : ℕ) (h : i + 1 < l.length) :
    (ewm_mean span l).getD (i + 1) 0
      = specAlpha span * l.getD (i + 1) 0
        + (1 - specAlpha span) * (ewm_mean span l).getD i 0 := by
  cases l with
  | nil => simp at h
  | cons x xs =>
    cases i with
    | zero =>
      cases xs with
      | nil => simp at h
      | cons y ys => simp [ewm_mean, ewmAux, specAlpha]
    | succ j =>
      have hj : j + 1 < xs.length := by simpa using Nat.lt_of_succ_lt_succ h
      have := ewmAux_getD_succ (2 / ((span : ℚ) + 1)) xs j x hj
      simpa [ewm_mean, specAlpha] using this

/-- The implementation EMA agrees pointwise with the reference recursion of
the spec, at every in-range index. -/
theorem ewm_mean_getD_spec (span : ℕ) (l : List ℚ) :
    ∀ i : ℕ, i < l.length →
      (ewm_mean span l).getD i 0 = specEma (specAlpha span) (fun j => l.getD j 0) i := by
  intro i
  induction i with
  | zero =>
    intro h
    cases l with
    | nil => simp at h
    | cons x xs => simp [ewm_mean, specEma]
  | succ j ih =>
    intro h
    have hj : j < l.length := Nat.lt_of_succ_lt h
    rw [ewm_mean_getD_succ span l j h, ih hj]
    simp [specEma]

/-- `specEma` only looks at the inputs up to its index. -/
theorem specEma_congr (a : ℚ) (p q : ℕ → ℚ) :
    ∀ i : ℕ, (∀ j : ℕ, j ≤ i → p j = q j) → specEma a p i = specEma a q i := by
  intro i
  induction i with
  | zero => intro h; simp [specEma, h 0 (Nat.le_refl 0)]
  | succ j ih =>
    intro h
    have hji : ∀ k : ℕ, k ≤ j → p k = q k := fun k hk => h k (Nat.le_succ_of_le hk)
    simp [specEma, ih hji, h (j + 1) (Nat.le_refl (j + 1))]

theorem zipWith_sub_getD (xs ys : List ℚ) :
    ∀ i : ℕ, i < xs.length → i < ys.length →
      (List.zipWith (fun x y => x - y) xs ys).getD i 0 = xs.getD i 0 - ys.getD i 0 := by
  induction xs generalizing ys with
  | nil => intro i h _; simp at h
  | cons x xs ih =>
    intro i hx hy
    cases ys with
    | nil => simp at hy
    | cons y ys =>
      cases i with
      | zero => simp
      | succ j =>
        have hx' : j < xs.length := Nat.lt_of_succ_lt_succ hx
        have hy' : j < ys.length := Nat.lt_of_succ_lt_succ hy
        simpa using ih ys j hx' hy'

@[simp] theorem length_macd_line (prices : List ℚ) (f s : ℕ) :
    (macd_line prices f s).length = prices.length := by
  simp [macd_line]

@[simp] theorem length_signal_line (prices : List ℚ) (f s g : ℕ) :
    (signal_line prices f s g).length = prices.length := by
  simp [signal_line]

@[simp] theorem length_histogram (prices : List ℚ) (f s g : ℕ) :
    (histogram prices f s g).length = prices.length := by
  simp [histogram]

theorem macd_line_getD_spec (prices : List ℚ) (f s : ℕ) (i : ℕ) (h : i < prices.length) :
    (macd_line prices f s).getD i 0 = specMacdLine prices f s i := by
  have h1 : i < (ewm_mean f prices).length := by simpa using h
  have h2 : i < (ewm_mean s prices).length := by simpa using h
  rw [macd_line, zipWith_sub_getD _ _ i h1 h2,
    ewm_mean_getD_spec f prices i h, ewm_mean_getD_spec s prices i h]
  rfl

theorem signal_line_getD_spec (prices : List ℚ) (f s g : ℕ) (i : ℕ)
    (h : i < prices.length) :
    (signal_line prices f s g).getD i 0 = specSignalLine prices f s g i := by
  have hm : i < (macd_line prices f s).length := by simpa using h
  rw [signal_line, ewm_mean_getD_spec g _ i hm]
  exact specEma_congr _ _ _ i fun j hj =>
    macd_line_getD_spec prices f s j (lt_of_le_of_lt hj h)

theorem histogram_getD_spec (prices : List ℚ) (f s g : ℕ) (i : ℕ)
    (h : i < prices.length) :
    (histogram prices f s g).getD i 0 = specHistogram prices f s g i := by
  have h1 : i < (macd_line prices f s).length := by simpa using h
  have h2 : i < (signal_line prices f s g).length := by simpa using h
  rw [histogram, zipWith_sub_getD _ _ i h1 h2,
    macd_line_getD_spec prices f s i h, signal_line_getD_spec prices f s g i h]
  rfl

theorem getLast?_eq_getD_of_ne_nil (l : List ℚ) (h : l ≠ []) :
    l.getLast? = some (l.getD (l.length - 1) 0) := by
  have hpos : 0 < l.length := List.length_pos.mpr h
  have hlt : l.length - 1 < l.length := by omega
  rw [List.getLast?_eq_getElem?, List.getElem?_eq_getElem hlt,
    List.getD_eq_getElem?_getD, List.getElem?_eq_getElem hlt]
  rfl

/-- For a non-empty price series, `calculate_macd` returns the reference
values of the three series at the last index. -/
theorem calculate_macd_spec (prices : List ℚ) (f s g : ℕ) (h : prices ≠ []) :
    calculate_macd prices f s g
      = some (specMacdLine prices f s (prices.length - 1),
          specSignalLine prices f s g (prices.length - 1),
          specHistogram prices f s g (prices.length - 1)) := by
  have hlt : prices.length - 1 < prices.length := by
    have := List.length_pos.mpr h
    omega
  have hm : macd_line prices f s ≠ [] := by
    intro hc
    have := congrArg List.length hc
    simp at this
    exact h this
  have hs : signal_line prices f s g ≠ [] := by
    intro hc
    have := congrArg List.length hc
    simp at this
    exact h this
  have hh : histogram prices f s g ≠ [] := by
    intro hc
    have := congrArg List.length hc
    simp at this
    exact h this
  rw [calculate_macd, getLast?_eq_getD_of_ne_nil _ hm, getLast?_eq_getD_of_ne_nil _ hs,
    getLast?_eq_getD_of_ne_nil _ hh]
  simp only [length_macd_line, length_signal_line, length_histogram]
  rw [macd_line_getD_spec prices f s _ hlt, signal_line_getD_spec prices f s g _ hlt,
    histogram_getD_spec prices f s g _ hlt]

/-- c1: for every non-empty price series, `calculate_macd(prices, 12, 26, 9)`
equals the reference MACD definition: fast and slow EMAs use the non-adjusted
recursion with `alpha = 2/(span+1)`, the MACD line is their pointwise
difference, the signal line is the span-9 EMA of the MACD line, the histogram
is MACD line minus signal line, and the function returns the last element of
the MACD line, the signal line and the histogram, in that order. -/
theorem c1_calculate_macd_matches_reference (prices : List ℚ) (h : prices ≠ []) :
    calculate_macd prices 12 26 9
      = some (specMacdLine prices 12 26 (prices.length - 1),
          specSignalLine prices 12 26 9 (prices.length - 1),
          specHistogram prices 12 26 9 (prices.length - 1)) :=
  calculate_macd_spec prices 12 26 9 h

/-- Witness for c1 at the concrete series `[100, 102, 101]`. -/
theorem c1_calculate_macd_matches_reference_witness :
    calculate_macd [100, 102, 101] 12 26 9
      = some (specMacdLine [100, 102, 101] 12 26 2,
          specSignalLine [100, 102, 101] 12 26 9 2,
          specHistogram [100, 102, 101] 12 26 9 2) :=
  c1_calculate_macd_matches_reference [100, 102, 101] (by decide)

/-- c8: for every price series of length at least 2, the histogram component
returned by `calculate_macd` equals the returned macd component minus the
returned signal component. -/
theorem c8_histogram_eq_macd_sub_signal (prices : List ℚ) (h : 2 ≤ prices.length) :
    ∃ m s hist, calculate_macd prices 12 26 9 = some (m, s, hist) ∧ hist = m - s := by
  have hne : prices ≠ [] := by
    intro hc
    rw [hc] at h
    simp at h
  refine ⟨specMacdLine prices 12 26 (prices.length - 1),
    specSignalLine prices 12 26 9 (prices.length - 1),
    specHistogram prices 12 26 9 (prices.length - 1),
    calculate_macd_spec prices 12 26 9 hne, ?_⟩
  rfl

/-- Witness for c8 at the concrete series `[100, 101]`. -/
theorem c8_histogram_eq_macd_sub_signal_witness :
    ∃ m s hist, calculate_macd [100, 101] 12 26 9 = some (m, s, hist) ∧ hist = m - s :=
  c8_histogram_eq_macd_sub_signal [100, 101] (by decide)

/-- On a one-element series every stage collapses: both EMAs are `[p]`,
the MACD line is `[0]`, the signal line is `[0]`, the histogram is `[0]`. -/
theorem calculate_macd_singleton (p : ℚ) (f s g : ℕ) :
    calculate_macd [p] f s g = some (0, 0, 0) := by
  simp [calculate_macd, histogram, signal_line, macd_line, ewm_mean, ewmAux]

/-- c9: for every single-element price series `[p]`, `calculate_macd` returns
exactly `(0, 0, 0)`: with one point each EMA equals `p`, so the macd line,
signal line and histogram are all zero, rather than an error or an undefined
value. -/
theorem c9_calculate_macd_singleton_zero (p : ℚ) :
    calculate_macd [p] 12 26 9 = some (0, 0, 0) :=
  calculate_macd_singleton p 12 26 9

/-! ## format_price_data (crypto_price_macd.py, lines 117-143)

The three indicator cells of a row are filled from `calculate_macd`
whenever `crypto in historical_data and historical_data[crypto]` holds,
i.e. whenever the entry exists and the series is non-empty (a non-empty
list is truthy in Python); otherwise the three cells are `None`, printed
as N/A. -/

/-- The MACD/Signal/Histogram cells of one row of `format_price_data`,
given the historical entry for the coin (`none` when the coin is absent
from `historical_data`); `none` in the output is printed as N/A. -/
def format_macd_cell (entry : Option (List ℚ)) : Option (ℚ × ℚ × ℚ) :=
  match entry with
  | some prices => if prices = [] then none else calculate_macd prices 12 26 9
  | none => none

/-- c5 counterexample: the one-point series `[100]` has fewer than 2 points,
yet `format_price_data` does invoke the MACD calculator on it and fills the
cells with `(0, 0, 0)` instead of N/A. -/
theorem c5_counterexample :
    ([(100 : ℚ)].length < 2) ∧ format_macd_cell (some [100]) = some (0, 0, 0) := by
  refine ⟨by decide, ?_⟩
  show (if ([(100 : ℚ)] : List ℚ) = [] then none else calculate_macd [100] 12 26 9)
    = some (0, 0, 0)
  rw [if_neg (by decide)]
  exact calculate_macd_singleton 100 12 26 9

/-- c5 amended: `format_price_data` reports the indicators as unavailable
exactly when the coin has no historical entry or its series is empty; a
single-point series does invoke the calculator and yields `(0, 0, 0)`. -/
theorem c5_short_circuit_only_on_empty (p : ℚ) :
    format_macd_cell none = none
    ∧ format_macd_cell (some []) = none
    ∧ format_macd_cell (some [p]) = some (0, 0, 0) := by
  refine ⟨rfl, by simp [format_macd_cell], ?_⟩
  show (if ([p] : List ℚ) = [] then none else calculate_macd [p] 12 26 9)
    = some (0, 0, 0)
  rw [if_neg (by simp)]
  exact calculate_macd_singleton p 12 26 9

/-! ## Rate-limited client (crypto_price_macd.py, lines 19-69)

`_create_session` installs `Retry(total=3, backoff_factor=2,
status_forcelist=[429, 500, 502, 503, 504])` on the session.  A single
`session.get` therefore transparently retries connection failures and
forcelist statuses up to 3 times, sleeping between attempts for the
Retry-After header value when the response carries one (urllib3 respects
it by default) and otherwise for `Retry.get_backoff_time`, which is 0
before the first retry (backoff applies only after the second try) and
`backoff_factor * 2^(k-1)` before the k-th retry afterwards — with
`backoff_factor=2` the schedule is 0, 4, 8 seconds, not the 2, 4, 8 that
the comment in `_create_session` announces; when the retries are
exhausted it raises `RetryError` (status retries) or `ConnectionError`
(connection retries) instead of returning the response.  `make_request`
then calls `raise_for_status` on a returned response and handles the
resulting `HTTPError`: on status 429 it sleeps for the Retry-After header
(default 60) and re-enters `make_request`; other errors are re-raised. -/

/-- Outcome of one low-level HTTP send: a connection failure, or a response
with a status code and an optional integral Retry-After header. -/
inductive SendResult where
  | connFail : SendResult
  | response : ℕ → Option ℕ → SendResult
deriving DecidableEq

/-- The `status_forcelist` of `_create_session`. -/
def status_forcelist : List ℕ := [429, 500, 502, 503, 504]

/-- Errors that `make_request` can raise to its caller. -/
inductive ClientError where
  | retryError : ℕ → ClientError
  | connectionError : ClientError
  | httpError : ℕ → ClientError
deriving DecidableEq

/-- `Retry.get_backoff_time` before retry number `used + 1`: urllib3
returns 0 while the consecutive-error history holds at most one entry
(the first retry is immediate) and `backoff_factor * 2^(len - 1)` with
`len = used + 1` afterwards, giving 0, 4, 8 seconds for factor 2. -/
def backoff_time (used : ℕ) : ℚ :=
  if used = 0 then 0 else ((2 * 2 ^ used : ℕ) : ℚ)

/-- The retry loop inside a single `session.get` under the strategy of
`_create_session`.  Arguments: the server (mapping the global send index to
an outcome), the index of the next send, the number of retries already
used, and the retries left.  Returns the result (the final response, or the
error raised on exhaustion), the number of sends, and the sleeps performed
between attempts. -/
def session_get_aux (server : ℕ → SendResult) :
    ℕ → ℕ → ℕ → Except ClientError (ℕ × Option ℕ) × ℕ × List ℚ
  | idx, _, 0 =>
    match server idx with
    | SendResult.connFail => (Except.error ClientError.connectionError, 1, [])
    | SendResult.response st ra =>
      if st ∈ status_forcelist then (Except.error (ClientError.retryError st), 1, [])
      else (Except.ok (st, ra), 1, [])
  | idx, used, l + 1 =>
    match server idx with
    | SendResult.connFail =>
      let r := session_get_aux server (idx + 1) (used + 1) l
      (r.1, r.2.1 + 1, backoff_time used :: r.2.2)
    | SendResult.response st ra =>
      if st ∈ status_forcelist then
        let d : ℚ := match ra with
          | some n => (n : ℚ)
          | none => backoff_time used
        let r := session_get_aux server (idx + 1) (used + 1) l
        (r.1, r.2.1 + 1, d :: r.2.2)
      else (Except.ok (st, ra), 1, [])

/-- One `session.get` call: the retry loop with `total = 3` fresh retries. -/
def session_get (server : ℕ → SendResult) (idx : ℕ) :
    Except ClientError (ℕ × Option ℕ) × ℕ × List ℚ :=
  session_get_aux server idx 0 3

deriving instance DecidableEq for Except

/-- Observable trace of one `make_request` call: its result, the number of
HTTP sends that went out, the number of `_wait_for_rate_limit` runs, the
number of times the explicit 429 handler of lines 59-63 ran, and the sleeps
performed by the session retry machinery and by that handler. -/
structure ReqTrace where
  result : Except ClientError ℕ
  sends : ℕ
  throttles : ℕ
  handlerRuns : ℕ
  sleeps : List ℚ
deriving DecidableEq

/-- `make_request` (lines 49-69): throttle, `session.get`, then
`raise_for_status`; an `HTTPError` with status 429 makes the handler sleep
for the Retry-After header (default 60) and re-enter `make_request`; any
other raised error propagates.  `fuel` bounds the syntactically unbounded
Python recursion (the zero-fuel handler branch is a marker; the theorems
below show the whole handler branch is dead). -/
def make_request (server : ℕ → SendResult) : ℕ → ℕ → ReqTrace
  | 0, idx =>
    match session_get server idx with
    | (Except.error e, n, sl) => ReqTrace.mk (Except.error e) n 1 0 sl
    | (Except.ok (st, ra), n, sl) =>
      if 400 ≤ st then
        if st = 429 then
          ReqTrace.mk (Except.error (ClientError.httpError 429)) n 1 1
            (sl ++ [((ra.getD 60 : ℕ) : ℚ)])
        else ReqTrace.mk (Except.error (ClientError.httpError st)) n 1 0 sl
      else ReqTrace.mk (Except.ok st) n 1 0 sl
  | fuel + 1, idx =>
    match session_get server idx with
    | (Except.error e, n, sl) => ReqTrace.mk (Except.error e) n 1 0 sl
    | (Except.ok (st, ra), n, sl) =>
      if 400 ≤ st then
        if st = 429 then
          let k := make_request server fuel (idx + n)
          ReqTrace.mk k.result (n + k.sends) (1 + k.throttles) (1 + k.handlerRuns)
            (sl ++ ((ra.getD 60 : ℕ) : ℚ) :: k.sleeps)
        else ReqTrace.mk (Except.error (ClientError.httpError st)) n 1 0 sl
      else ReqTrace.mk (Except.ok st) n 1 0 sl

/-- A `session.get` can only hand a response back to `raise_for_status`
when its status is outside the forcelist: forcelist statuses are consumed
by the session retry machinery, which raises on exhaustion. -/
theorem session_get_aux_ok_not_forcelist (server : ℕ → SendResult) :
    ∀ (left idx used st : ℕ) (ra : Option ℕ),
      (session_get_aux server idx used left).1 = Except.ok (st, ra) →
      ¬ st ∈ status_forcelist := by
  intro left
  induction left with
  | zero =>
    intro idx used st ra h hmem
    cases hs : server idx with
    | connFail => rw [session_get_aux, hs] at h; simp at h
    | response st2 ra2 =>
      rw [session_get_aux, hs] at h
      by_cases hf : st2 ∈ status_forcelist
      · simp [hf] at h
      · simp [hf] at h
        exact hf (by rw [h.1]; exact hmem)
  | succ l ih =>
    intro idx used st ra h hmem
    cases hs : server idx with
    | connFail =>
      rw [session_get_aux, hs] at h
      exact ih (idx + 1) (used + 1) st ra h hmem
    | response st2 ra2 =>
      rw [session_get_aux, hs] at h
      by_cases hf : st2 ∈ status_forcelist
      · simp only [if_pos hf] at h
        exact ih (idx + 1) (used + 1) st ra h hmem
      · simp [hf] at h
        exact hf (by rw [h.1]; exact hmem)

/-- The session retry machinery performs at most `left + 1` sends. -/
theorem session_get_aux_sends_le (server : ℕ → SendResult) :
    ∀ (left idx used : ℕ), (session_get_aux server idx used left).2.1 ≤ left + 1 := by
  intro left
  induction left with
  | zero =>
    intro idx used
    cases hs : server idx with
    | connFail => rw [session_get_aux, hs]
    | response st2 ra2 =>
      rw [session_get_aux, hs]
      by_cases hf : st2 ∈ status_forcelist
      · simp [hf]
      · simp [hf]
  | succ l ih =>
    intro idx used
    cases hs : server idx with
    | connFail =>
      rw [session_get_aux, hs]
      simpa using Nat.add_le_add_right (ih (idx + 1) (used + 1)) 1
    | response st2 ra2 =>
      rw [session_get_aux, hs]
      by_cases hf : st2 ∈ status_forcelist
      · simp only [if_pos hf]
        simpa using Nat.add_le_add_right (ih (idx + 1) (used + 1)) 1
      · simp [hf]

/-- The explicit 429 handler of `make_request` never runs: every 429 is
consumed by the session-level retry strategy instead. -/
theorem make_request_handler_never_runs (server : ℕ → SendResult) (fuel idx : ℕ) :
    (make_request server fuel idx).handlerRuns = 0 := by
  rcases hsg : session_get server idx with ⟨res, n, sl⟩
  cases res with
  | error e =>
    cases fuel with
    | zero => simp [make_request, hsg]
    | succ f => simp [make_request, hsg]
  | ok p =>
    obtain ⟨st, ra⟩ := p
    have hok : (session_get server idx).1 = Except.ok (st, ra) := by rw [hsg]
    have hnf : ¬ st ∈ status_forcelist :=
      session_get_aux_ok_not_forcelist server 3 idx 0 st ra hok
    have h429 : ¬ st = 429 := fun hc => hnf (by rw [hc]; decide)
    by_cases h4 : 400 ≤ st
    · cases fuel with
      | zero => simp [make_request, hsg, h4, h429]
      | succ f => simp [make_request, hsg, h4, h429]
    · cases fuel with
      | zero => simp [make_request, hsg, h4]
      | succ f => simp [make_request, hsg, h4]

/-- A server that answers every send with 429 and `Retry-After: 5`. -/
def server_always_429 : ℕ → SendResult :=
  fun _ => SendResult.response 429 (some 5)

/-- A server that answers 429 with `Retry-After: 5` once, then 200. -/
def server_429_then_ok : ℕ → SendResult :=
  fun i => if i = 0 then SendResult.response 429 (some 5) else SendResult.response 200 none

/-- A server that answers every send with 503 and no Retry-After header. -/
def server_always_503 : ℕ → SendResult :=
  fun _ => SendResult.response 503 none

/-- A server whose connection always fails. -/
def server_always_connfail : ℕ → SendResult :=
  fun _ => SendResult.connFail

/-- c2: the explicit 429 handler of `make_request` (read Retry-After,
default 60, sleep, re-enter the full client path) is dead code, because
`_create_session` also lists 429 in the session `status_forcelist`: the
session retry machinery consumes every 429 (sleeping per Retry-After but
bypassing `_wait_for_rate_limit`), is bounded by the generic 3-retry
policy, and on exhaustion raises `RetryError` rather than retrying again;
a transient 429 is likewise resolved inside the single `session.get`. -/
theorem c2_429_consumed_by_generic_retry_policy :
    make_request server_always_429 1000 0
      = ReqTrace.mk (Except.error (ClientError.retryError 429)) 4 1 0 [5, 5, 5]
    ∧ make_request server_429_then_ok 1000 0
      = ReqTrace.mk (Except.ok 200) 2 1 0 [5]
    ∧ (∀ (server : ℕ → SendResult) (fuel idx : ℕ),
        (make_request server fuel idx).handlerRuns = 0) :=
  ⟨by decide, by decide, make_request_handler_never_runs⟩

/-- c3 counterexample: against a server that always answers 503 without a
Retry-After header, the sleep schedule between the retries is 0, 4, 8
seconds — the first retry is immediate, so the backoff does not start at 2
seconds as claimed (and as the comment in `_create_session` announces). -/
theorem c3_counterexample :
    (make_request server_always_503 1000 0).sleeps = [0, 4, 8]
    ∧ ¬ (make_request server_always_503 1000 0).sleeps = [2, 4, 8] :=
  ⟨by decide, by decide⟩

/-- c3 amended: for the retryable statuses (modelled by an always-503
server) and for low-level connection failures, the client performs at most
3 retries (4 sends); the first retry is immediate and the following
retries back off 4 then 8 seconds (urllib3 applies `backoff_factor * 2^(k-1)`
only from the second retry on); when the attempts are exhausted the error
is raised to the caller and no further retries are performed; in general a
single request never issues more than 4 sends. -/
theorem c3_retry_bounded_first_retry_immediate :
    make_request server_always_503 1000 0
      = ReqTrace.mk (Except.error (ClientError.retryError 503)) 4 1 0 [0, 4, 8]
    ∧ make_request server_always_connfail 1000 0
      = ReqTrace.mk (Except.error ClientError.connectionError) 4 1 0 [0, 4, 8]
    ∧ (∀ (server : ℕ → SendResult) (idx : ℕ), (session_get server idx).2.1 ≤ 4) :=
  ⟨by decide, by decide, fun server idx => session_get_aux_sends_le server 3 idx 0⟩

/-! ## Throttling (crypto_price_macd.py, lines 23-24 and 39-47) -/

/-- `min_request_interval = 1.5` seconds. -/
def min_request_interval : ℚ := 3 / 2

/-- `_wait_for_rate_limit`: read the clock (`now`), compute the time since
`last_request_time` (`last`), sleep for the shortfall when it is below
`min_request_interval`, then store a fresh clock reading taken after the
sleep into `last_request_time` (line 47) — the send time, not the time at
which throttling was evaluated.  `eps` is the non-negative clock advance
between the end of the sleep and that second reading.  Returns the send
time, the new `last_request_time` and the sleep duration. -/
def wait_for_rate_limit (now last eps : ℚ) : ℚ × ℚ × ℚ :=
  let elapsed := now - last
  let sleep_time :=
    if elapsed < min_request_interval then min_request_interval - elapsed else 0
  (now + sleep_time + eps, now + sleep_time + eps, sleep_time)

/-- c4: before any network call the client computes `elapsed = now - last`
and sleeps `min_request_interval - elapsed` when `elapsed` is short (third
conjunct); `last_request_time` is updated to the send time itself, not the
evaluation time (second conjunct); hence, reading `last` as the previous
send time, consecutive send times are at least 1.5 seconds apart (first
conjunct). -/
theorem c4_throttle_min_gap (now last eps : ℚ) (heps : 0 ≤ eps) :
    min_request_interval ≤ (wait_for_rate_limit now last eps).1 - last
    ∧ (wait_for_rate_limit now last eps).2.1 = (wait_for_rate_limit now last eps).1
    ∧ (wait_for_rate_limit now last eps).2.2
        = (if now - last < min_request_interval
            then min_request_interval - (now - last) else 0) := by
  refine ⟨?_, rfl, rfl⟩
  simp only [wait_for_rate_limit]
  split_ifs with h
  · linarith
  · linarith

/-- Witness for c4 with `now = 10`, `last = 19/2`, `eps = 0`. -/
theorem c4_throttle_min_gap_witness :
    min_request_interval ≤ (wait_for_rate_limit 10 (19 / 2) 0).1 - 19 / 2
    ∧ (wait_for_rate_limit 10 (19 / 2) 0).2.1 = (wait_for_rate_limit 10 (19 / 2) 0).1
    ∧ (wait_for_rate_limit 10 (19 / 2) 0).2.2
        = (if (10 : ℚ) - 19 / 2 < min_request_interval
            then min_request_interval - ((10 : ℚ) - 19 / 2) else 0) :=
  c4_throttle_min_gap 10 (19 / 2) 0 (le_refl 0)

/-! ## CSV logging

`save_to_csv` (crypto_price_macd.py, lines 146-158) and
`CryptoPriceTracker.create_initial_csv` (price_change.py, lines 20-31).
A file is a list of rows; `none` models an absent file. -/

/-- `save_to_csv`: append mode when the file exists, write mode otherwise;
the header row (with a leading Timestamp column) is written only when the
file did not exist; every data row is written with the timestamp
prepended. -/
def save_to_csv (headers : List String) (data : List (List String)) (ts : String) :
    Option (List (List String)) → List (List String)
  | none => (("Timestamp") :: headers) :: data.map (fun row => ts :: row)
  | some old => old ++ data.map (fun row => ts :: row)

/-- `create_initial_csv`: builds the header row and writes it with
`df.to_csv(self.output_file, index=False)`, which replaces whatever the
file contained; it runs unconditionally from `__init__`. -/
def create_initial_csv (coins : List String) :
    Option (List (List String)) → List (List String) :=
  fun _ =>
    [("timestamp") :: (coins.map (fun c => c ++ ("_price"))
      ++ coins.map (fun c => c ++ ("_change")))]

/-- c7 counterexample: for the tracker of price_change.py, a new run resets
an existing output file — the old data row is discarded and the header is
rewritten — instead of appending below the existing header. -/
theorem c7_counterexample :
    create_initial_csv [("bitcoin")]
        (some [[("timestamp"), ("bitcoin_price"), ("bitcoin_change")],
          [("2026-01-01 00:00:00"), ("100"), ("0.00")]])
      = [[("timestamp"), ("bitcoin_price"), ("bitcoin_change")]]
    ∧ (create_initial_csv [("bitcoin")]
        (some [[("timestamp"), ("bitcoin_price"), ("bitcoin_change")],
          [("2026-01-01 00:00:00"), ("100"), ("0.00")]])).length
      < (([[("timestamp"), ("bitcoin_price"), ("bitcoin_change")],
          [("2026-01-01 00:00:00"), ("100"), ("0.00")]] : List (List String))).length := by
  exact ⟨rfl, by decide⟩

/-- c7 amended: the CSV logger `save_to_csv` of crypto_price_macd.py writes
the header row (with a leading Timestamp column) only when the output file
does not yet exist, and on an existing file appends the timestamped data
rows without touching the existing contents, so the header line is not
duplicated; `create_initial_csv` of price_change.py instead resets the
file with a fresh header on every run. -/
theorem c7_save_to_csv_header_once (headers : List String) (data : List (List String))
    (ts : String) (old : List (List String)) (hts : ts ≠ ("Timestamp")) :
    save_to_csv headers data ts none
      = (("Timestamp") :: headers) :: data.map (fun row => ts :: row)
    ∧ save_to_csv headers data ts (some old) = old ++ data.map (fun row => ts :: row)
    ∧ (save_to_csv headers data ts (some old)).count (("Timestamp") :: headers)
        = old.count (("Timestamp") :: headers) := by
  refine ⟨rfl, rfl, ?_⟩
  show (old ++ data.map (fun row => ts :: row)).count (("Timestamp") :: headers)
    = old.count (("Timestamp") :: headers)
  rw [List.count_append]
  have hz : (data.map (fun row => ts :: row)).count (("Timestamp") :: headers) = 0 := by
    rw [List.count_eq_zero]
    intro hmem
    rw [List.mem_map] at hmem
    obtain ⟨row, -, heq⟩ := hmem
    exact hts (List.cons.inj heq).1
  omega

/-- Witness for c7 at a concrete header, row, timestamp and existing file. -/
theorem c7_save_to_csv_header_once_witness :
    save_to_csv [("Price")] [[("1")]] ("2026-01-01 00:00:00") none
      = (("Timestamp") :: [("Price")])
          :: ([[("1")]] : List (List String)).map (fun row => ("2026-01-01 00:00:00") :: row)
    ∧ save_to_csv [("Price")] [[("1")]] ("2026-01-01 00:00:00")
          (some [[("Timestamp"), ("Price")]])
        = [[("Timestamp"), ("Price")]]
            ++ ([[("1")]] : List (List String)).map (fun row => ("2026-01-01 00:00:00") :: row)
    ∧ (save_to_csv [("Price")] [[("1")]] ("2026-01-01 00:00:00")
          (some [[("Timestamp"), ("Price")]])).count (("Timestamp") :: [("Price")])
        = ([[("Timestamp"), ("Price")]] : List (List String)).count
            (("Timestamp") :: [("Price")]) :=
  c7_save_to_csv_header_once [("Price")] [[("1")]] ("2026-01-01 00:00:00")
    [[("Timestamp"), ("Price")]] (by decide)

/-! ## price_change.py: CryptoPriceTracker

Python dicts are association lists keyed by coin id; dict access raises
`KeyError` on a missing key and float division raises `ZeroDivisionError`
on a zero denominator, so the embedded operations return `Except`. -/

/-- Python exceptions raised by the tracker code. -/
inductive PyErr where
  | keyError : String → PyErr
  | zeroDivisionError : PyErr
deriving DecidableEq

/-- Python dict lookup `d[k]`: KeyError when the key is absent. -/
def dict_get (m : List (String × ℚ)) (k : String) : Except PyErr ℚ :=
  match m.find? (fun kv => kv.1 == k) with
  | some kv => Except.ok kv.2
  | none => Except.error (PyErr.keyError k)

/-- Python membership test `k in d`. -/
def dict_mem (m : List (String × ℚ)) (k : String) : Bool :=
  (m.find? (fun kv => kv.1 == k)).isSome

/-- Total lookup, used to state properties of the dict operations. -/
def dict_find (m : List (String × ℚ)) (k : String) : Option ℚ :=
  (m.find? (fun kv => kv.1 == k)).map (fun kv => kv.2)

/-- Python dict assignment `d[k] = v`. -/
def dict_set (m : List (String × ℚ)) (k : String) (v : ℚ) : List (String × ℚ) :=
  match m with
  | [] => [(k, v)]
  | kv :: rest => if kv.1 == k then (k, v) :: rest else kv :: dict_set rest k v

/-- Line 55: `((curr_price - prev_price) / prev_price) * 100`; Python
raises ZeroDivisionError when the recorded previous price is zero. -/
def pct_change (prev curr : ℚ) : Except PyErr ℚ :=
  if prev = 0 then Except.error PyErr.zeroDivisionError
  else Except.ok ((curr - prev) / prev * 100)

/-- Lines 52-58 of `calculate_changes`, for one coin: the percentage change
against the recorded previous price, or `0` when none is recorded;
`current_prices[coin]` raises KeyError when the coin is missing from the
fetched mapping. -/
def coin_change (previous current : List (String × ℚ)) (c : String) : Except PyErr ℚ :=
  if dict_mem previous c then do
    let prev ← dict_get previous c
    let curr ← dict_get current c
    pct_change prev curr
  else Except.ok 0

/-- `CryptoPriceTracker.calculate_changes` (lines 49-60): iterate over the
tracked coins in order, record the change for each, and set
`previous_prices[coin]` to `current_prices[coin]` (line 59, which raises
KeyError when the coin is absent from `current_prices`).  Returns the
changes and the updated `previous_prices`. -/
def calculate_changes (current : List (String × ℚ)) :
    List String → List (String × ℚ) →
    Except PyErr (List (String × ℚ) × List (String × ℚ))
  | [], previous => Except.ok ([], previous)
  | c :: cs, previous => do
    let change ← coin_change previous current c
    let curr ← dict_get current c
    let rest ← calculate_changes current cs (dict_set previous c curr)
    Except.ok ((c, change) :: rest.1, rest.2)

/-- One iteration of `CryptoPriceTracker.run` (lines 96-107):
`fetch_prices` yields a price dict or `None` (its own try/except catches
request errors, line 45-47); with a dict the body computes changes and
logs.  The body has no try/except, so an error in `calculate_changes`
escapes the iteration. -/
def price_change_cycle (coins : List String) (previous : List (String × ℚ))
    (fetched : Option (List (String × ℚ))) : Except PyErr (List (String × ℚ)) :=
  match fetched with
  | none => Except.ok previous
  | some current => do
    let r ← calculate_changes current coins previous
    Except.ok r.2

/-- The `while True` loop of `CryptoPriceTracker.run`, driven by the list
of per-cycle fetch outcomes: an uncaught cycle error propagates out of the
loop and terminates it, leaving the remaining cycles unprocessed. -/
def price_change_run (coins : List String) :
    List (String × ℚ) → List (Option (List (String × ℚ))) →
    Except PyErr (List (String × ℚ))
  | previous, [] => Except.ok previous
  | previous, f :: fs => do
    let p ← price_change_cycle coins previous f
    price_change_run coins p fs

/-! ## price_fetcher.py: plain fetch/format loop

The fetched mapping sends each coin id to its info dict (keys usd,
usd_24h_change, usd_market_cap, last_updated_at); the display formatting
of a row is abstracted to the list of values the code reads, in the
order the code reads them. -/

/-- `format_price_data` of price_fetcher.py (lines 33-57): one row per
coin, built from four dict accesses on the info mapping (line 45 reads
last_updated_at first, then the row reads usd, usd_24h_change and
usd_market_cap); each access raises KeyError when the key is absent. -/
def fetcher_format_price_data (data : List (String × List (String × ℚ))) :
    Except PyErr (List (String × List ℚ)) :=
  match data with
  | [] => Except.ok []
  | (crypto, info) :: rest => do
    let updated ← dict_get info ("last_updated_at")
    let usd ← dict_get info ("usd")
    let change ← dict_get info ("usd_24h_change")
    let cap ← dict_get info ("usd_market_cap")
    let tail ← fetcher_format_price_data rest
    Except.ok ((crypto, [usd, change, cap, updated]) :: tail)

/-- One iteration of price_fetcher.py's `main` loop (lines 70-89):
`fetch_crypto_prices` yields a mapping or `None` (its own try/except
catches request errors); a truthy mapping is formatted and printed.  The
body has no try/except, so a formatting error escapes the iteration. -/
def price_fetcher_cycle (fetched : Option (List (String × List (String × ℚ)))) :
    Except PyErr (List (String × List ℚ)) :=
  match fetched with
  | none => Except.ok []
  | some data => fetcher_format_price_data data

/-- The `while True` loop of price_fetcher.py's `main`, driven by the list
of per-cycle fetch outcomes: an uncaught cycle error propagates out of the
loop and terminates it.  Returns the number of completed cycles. -/
def price_fetcher_run :
    List (Option (List (String × List (String × ℚ)))) → Except PyErr ℕ
  | [] => Except.ok 0
  | f :: fs => do
    let _ ← price_fetcher_cycle f
    let n ← price_fetcher_run fs
    Except.ok (n + 1)

/-! ## The main loop of crypto_price_macd.py (lines 173-207)

The whole cycle body sits inside `try`, the handler logs the error, and
both paths end in `time.sleep(60)`.  A cycle is abstracted by its outcome
(`Except.ok` when the body ran to completion, `Except.error` when it
raised). -/

/-- One iteration of `main`: the caught error (if any) that was logged,
and the sleep that follows. -/
def macd_main_step (cycle : Except PyErr Unit) : Option PyErr × ℚ :=
  match cycle with
  | Except.ok _ => (none, 60)
  | Except.error e => (some e, 60)

/-- The `while True` loop of `main`: every cycle is processed, whatever
its outcome. -/
def macd_main_loop (cycles : List (Except PyErr Unit)) : List (Option PyErr × ℚ) :=
  cycles.map macd_main_step

/-! ### Dictionary and bind lemmas -/

theorem except_bind_ok {ε α β : Type} (x : α) (f : α → Except ε β) :
    (Except.ok x : Except ε α) >>= f = f x := rfl

theorem except_bind_err {ε α β : Type} (e : ε) (f : α → Except ε β) :
    (Except.error e : Except ε α) >>= f = Except.error e := rfl

theorem dict_mem_eq_isSome (m : List (String × ℚ)) (k : String) :
    dict_mem m k = (dict_find m k).isSome := by
  simp [dict_mem, dict_find]

theorem dict_get_of_find (m : List (String × ℚ)) (k : String) (v : ℚ)
    (h : dict_find m k = some v) : dict_get m k = Except.ok v := by
  rw [dict_find] at h
  cases hf : m.find? (fun kv => kv.1 == k) with
  | none => rw [hf] at h; simp at h
  | some kv =>
    rw [hf] at h
    simp at h
    simp [dict_get, hf, h]

theorem dict_find_set_self (m : List (String × ℚ)) (k : String) (v : ℚ) :
    dict_find (dict_set m k v) k = some v := by
  induction m with
  | nil => simp [dict_set, dict_find]
  | cons kv rest ih =>
    by_cases h : kv.1 = k
    · simp [dict_set, dict_find, h]
    · have hb : (kv.1 == k) = false := by simp [h]
      simp only [dict_set, hb, Bool.false_eq_true, if_false]
      simpa [dict_find, hb] using ih

theorem dict_find_set_ne (m : List (String × ℚ)) (k k' : String) (v : ℚ)
    (h : ¬ k' = k) :
    dict_find (dict_set m k v) k' = dict_find m k' := by
  have hkk : (k == k') = false := by
    simp
    exact fun hc => h hc.symm
  induction m with
  | nil => simp [dict_set, dict_find, hkk]
  | cons kv rest ih =>
    by_cases hh : kv.1 = k
    · simp [dict_set, dict_find, hh, hkk]
    · have hb : (kv.1 == k) = false := by simp [hh]
      simp only [dict_set, hb, Bool.false_eq_true, if_false]
      by_cases hk2 : kv.1 = k'
      · simp [dict_find, hk2]
      · have hb2 : (kv.1 == k') = false := by simp [hk2]
        simpa [dict_find, hb2] using ih

/-- The tail recursion of `calculate_changes` only updates the keys it
iterates over: a key outside the coin list keeps its previous entry. -/
theorem calculate_changes_untouched (current : List (String × ℚ)) :
    ∀ (cs : List String) (previous : List (String × ℚ))
      (r : List (String × ℚ) × List (String × ℚ)),
      calculate_changes current cs previous = Except.ok r →
      ∀ k : String, ¬ k ∈ cs → dict_find r.2 k = dict_find previous k := by
  intro cs
  induction cs with
  | nil =>
    intro previous r h k _
    rw [calculate_changes] at h
    simp at h
    rw [← h]
  | cons c cs ih =>
    intro previous r h k hk
    rw [calculate_changes] at h
    cases hX : coin_change previous current c with
    | error e => rw [hX, except_bind_err] at h; simp at h
    | ok change =>
      rw [hX, except_bind_ok] at h
      cases hY : dict_get current c with
      | error e => rw [hY, except_bind_err] at h; simp at h
      | ok curr =>
        rw [hY, except_bind_ok] at h
        cases hZ : calculate_changes current cs (dict_set previous c curr) with
        | error e => rw [hZ, except_bind_err] at h; simp at h
        | ok rest =>
          rw [hZ, except_bind_ok] at h
          simp at h
          have hknc : ¬ k = c ∧ ¬ k ∈ cs := by simpa [not_or] using hk
          rw [← h]
          rw [ih (dict_set previous c curr) rest hZ k hknc.2]
          exact dict_find_set_ne previous c k curr hknc.1

/-- Reference change for one coin, as the claim states it: the recorded
previous price gives `((curr - prev) / prev) * 100`, no recorded previous
price gives `0`. -/
def expected_change (previous current : List (String × ℚ)) (c : String) : ℚ :=
  match dict_find previous c with
  | some prev => ((dict_find current c).getD 0 - prev) / prev * 100
  | none => 0

/-- When the coin is covered by the fetched mapping and its recorded
previous price (if any) is nonzero, the per-coin change computation
returns the reference value. -/
theorem coin_change_ok (previous current : List (String × ℚ)) (c : String)
    (hcov : (dict_find current c).isSome = true)
    (hnz : dict_find previous c ≠ some 0) :
    coin_change previous current c = Except.ok (expected_change previous current c) := by
  obtain ⟨curr, hcur⟩ := Option.isSome_iff_exists.mp hcov
  cases hp : dict_find previous c with
  | none =>
    have hmem : dict_mem previous c = false := by rw [dict_mem_eq_isSome, hp]; rfl
    simp [coin_change, expected_change, hmem, hp]
  | some prev =>
    have hmem : dict_mem previous c = true := by rw [dict_mem_eq_isSome, hp]; rfl
    have hprev : dict_get previous c = Except.ok prev := dict_get_of_find _ _ _ hp
    have hcurr : dict_get current c = Except.ok curr := dict_get_of_find _ _ _ hcur
    have hne : ¬ prev = 0 := fun h0 => hnz (by rw [hp, h0])
    simp [coin_change, expected_change, hmem, hp, hprev, hcurr, pct_change, hne,
      except_bind_ok, hcur]

/-- c10 counterexample: with tracked coin bitcoin, a recorded previous
price of 0 and a current mapping covering all tracked coins (bitcoin at
5), `calculate_changes` raises ZeroDivisionError instead of returning the
percentage-change formula value. -/
theorem c10_counterexample :
    calculate_changes [(("bitcoin"), 5)] [("bitcoin")] [(("bitcoin"), 0)]
      = Except.error PyErr.zeroDivisionError := by
  rfl

/-- c10 amended: for every call to `calculate_changes` with a duplicate-free
tracked-coin list, a current mapping covering all tracked coins and every
recorded previous price nonzero, the returned change for a coin with no
recorded previous price is exactly 0, the change for a coin with previous
price `prev` and current price `curr` is `((curr - prev) / prev) * 100`,
and afterwards `previous_prices[coin]` equals the current price for every
tracked coin; with a recorded previous price of 0 the code raises
ZeroDivisionError instead. -/
theorem c10_calculate_changes_formula :
    ∀ (coins : List String) (previous current : List (String × ℚ)),
      coins.Nodup →
      (∀ c ∈ coins, (dict_find current c).isSome = true) →
      (∀ c ∈ coins, dict_find previous c ≠ some 0) →
      ∃ changes previous2,
        calculate_changes current coins previous = Except.ok (changes, previous2)
        ∧ changes = coins.map (fun c => (c, expected_change previous current c))
        ∧ ∀ c ∈ coins, dict_find previous2 c = dict_find current c := by
  intro coins
  induction coins with
  | nil =>
    intro previous current _ _ _
    exact ⟨[], previous, rfl, rfl, by simp⟩
  | cons c cs ih =>
    intro previous current hnodup hcov hnz
    obtain ⟨hcns, hnd⟩ := List.nodup_cons.mp hnodup
    have hcovc := hcov c (List.mem_cons_self c cs)
    have hnzc := hnz c (List.mem_cons_self c cs)
    obtain ⟨curr, hcur⟩ := Option.isSome_iff_exists.mp hcovc
    have hco : coin_change previous current c
        = Except.ok (expected_change previous current c) :=
      coin_change_ok previous current c hcovc hnzc
    have hgc : dict_get current c = Except.ok curr := dict_get_of_find _ _ _ hcur
    have hcov2 : ∀ x ∈ cs, (dict_find current x).isSome = true :=
      fun x hx => hcov x (List.mem_cons_of_mem c hx)
    have hnz2 : ∀ x ∈ cs, dict_find (dict_set previous c curr) x ≠ some 0 := by
      intro x hx
      have hxc : ¬ x = c := fun hxc => hcns (hxc ▸ hx)
      rw [dict_find_set_ne previous c x curr hxc]
      exact hnz x (List.mem_cons_of_mem c hx)
    obtain ⟨ch, p2, hrun, hmap, hfin⟩ :=
      ih (dict_set previous c curr) current hnd hcov2 hnz2
    have hexp : ∀ x ∈ cs,
        expected_change (dict_set previous c curr) current x
          = expected_change previous current x := by
      intro x hx
      have hxc : ¬ x = c := fun hxc => hcns (hxc ▸ hx)
      rw [expected_change, expected_change, dict_find_set_ne previous c x curr hxc]
    refine ⟨(c, expected_change previous current c) :: ch, p2, ?_, ?_, ?_⟩
    · simp only [calculate_changes, hco, hgc, hrun, except_bind_ok]
    · simp only [List.map_cons]
      refine congrArg _ (hmap.trans (List.map_congr_left ?_))
      intro x hx
      simp [hexp x hx]
    · intro x hx
      rcases List.mem_cons.mp hx with hxc | hxcs
      · subst hxc
        have hunt : dict_find p2 x = dict_find (dict_set previous x curr) x :=
          calculate_changes_untouched current cs (dict_set previous x curr)
            (ch, p2) hrun x hcns
        rw [hunt, dict_find_set_self, hcur]
      · exact hfin x hxcs

/-- Witness for c10 with coins bitcoin and ethereum, a recorded previous
price only for bitcoin, and a covering current mapping. -/
theorem c10_calculate_changes_formula_witness :
    ∃ changes previous2,
      calculate_changes [(("bitcoin"), 110), (("ethereum"), 2000)]
          [("bitcoin"), ("ethereum")] [(("bitcoin"), 100)]
        = Except.ok (changes, previous2)
      ∧ changes = ([("bitcoin"), ("ethereum")] : List String).map
          (fun c => (c, expected_change [(("bitcoin"), 100)]
            [(("bitcoin"), 110), (("ethereum"), 2000)] c))
      ∧ ∀ c ∈ ([("bitcoin"), ("ethereum")] : List String),
          dict_find previous2 c
            = dict_find [(("bitcoin"), 110), (("ethereum"), 2000)] c :=
  c10_calculate_changes_formula [("bitcoin"), ("ethereum")] [(("bitcoin"), 100)]
    [(("bitcoin"), 110), (("ethereum"), 2000)] (by decide) (by decide) (by decide)

/-- c6 counterexample: in `CryptoPriceTracker.run`, one cycle whose fetched
mapping lacks the tracked coin sui raises KeyError inside
`calculate_changes`; nothing catches it, so the error escapes
`price_change_run` and the loop terminates. -/
theorem c6_counterexample :
    price_change_run [("bitcoin"), ("sui")] [] [some [(("bitcoin"), 100)]]
      = Except.error (PyErr.keyError ("sui")) := by
  rfl

/-- c6 amended: the polling loop of crypto_price_macd.main catches every
per-cycle error, logs it and sleeps 60 seconds before the next cycle, and
processes every cycle (first three conjuncts); the loops of
price_change.run and price_fetcher.main have no such handler, so an
uncaught cycle error terminates each of them (last two conjuncts). -/
theorem c6_only_macd_main_catches_cycle_errors
    (cycles : List (Except PyErr Unit)) (e e2 : PyErr) (coins : List String)
    (previous : List (String × ℚ)) (f : Option (List (String × ℚ)))
    (fs : List (Option (List (String × ℚ))))
    (f2 : Option (List (String × List (String × ℚ))))
    (fs2 : List (Option (List (String × List (String × ℚ)))))
    (herr : price_change_cycle coins previous f = Except.error e)
    (herr2 : price_fetcher_cycle f2 = Except.error e2) :
    (macd_main_loop cycles).length = cycles.length
    ∧ macd_main_step (Except.error e) = (some e, 60)
    ∧ macd_main_step (Except.ok ()) = (none, 60)
    ∧ price_change_run coins previous (f :: fs) = Except.error e
    ∧ price_fetcher_run (f2 :: fs2) = Except.error e2 := by
  refine ⟨by simp [macd_main_loop], rfl, rfl, ?_, ?_⟩
  · rw [price_change_run, herr, except_bind_err]
  · rw [price_fetcher_run, herr2, except_bind_err]

/-- Witness for c6 at a concrete cycle list, the KeyError run of the
tracker, and a price_fetcher cycle whose info dict lacks
last_updated_at. -/
theorem c6_only_macd_main_catches_cycle_errors_witness :
    (macd_main_loop [Except.ok (), Except.error PyErr.zeroDivisionError]).length
      = ([Except.ok (), Except.error PyErr.zeroDivisionError]
          : List (Except PyErr Unit)).length
    ∧ macd_main_step (Except.error (PyErr.keyError ("sui")))
        = (some (PyErr.keyError ("sui")), 60)
    ∧ macd_main_step (Except.ok ()) = (none, 60)
    ∧ price_change_run [("bitcoin"), ("sui")] [] [some [(("bitcoin"), 100)]]
        = Except.error (PyErr.keyError ("sui"))
    ∧ price_fetcher_run [some [(("bitcoin"), [(("usd"), 100)])]]
        = Except.error (PyErr.keyError ("last_updated_at")) :=
  c6_only_macd_main_catches_cycle_errors
    [Except.ok (), Except.error PyErr.zeroDivisionError]
    (PyErr.keyError ("sui")) (PyErr.keyError ("last_updated_at"))
    [("bitcoin"), ("sui")] [] (some [(("bitcoin"), 100)]) []
    (some [(("bitcoin"), [(("usd"), 100)])]) [] (by rfl) (by rfl)

end CryptoFetcher
